import Mathlib

/-!
Shallow embedding of the per-server JetStream control plane from
`server/jetstream.go` (nats-server): the resource ledger, per-account
enable/update/disable lifecycle, stream admission checks, template-driven
stream materialization, name canonicalization, and the checksum-verified
recovery walk.  Machine `int64`/`int` values are modelled as `Int` (no claim
here hinges on wrap-around), strings as `List Char`, byte slices as
`List Nat`, Go maps keyed by account as association lists with distinct keys.
External collaborators (HighwayHash, SHA-256, JSON decoding, the storage
engine's `AddStream`) are abstracted as function parameters or result
descriptors at the exact call boundary.
-/

/-- Mirrors Go `StorageType` as used in this file (`MemoryStorage`, `FileStorage`). -/
inductive StorageType where
  | MemoryStorage
  | FileStorage
deriving DecidableEq

/-- Error kinds returned by the control-plane operations in `jetstream.go`. -/
inductive JetStreamError where
  | forbidden
  | alreadyEnabled
  | notEnabledForAccount
  | insufficientMemory
  | insufficientStorage
  | maxStreamsReached
  | maxConsumersExceeded
deriving DecidableEq

/-- Mirrors Go `JetStreamConfig` (the `StoreDir` path field is irrelevant to the
claims and omitted). -/
structure JetStreamConfig where
  MaxMemory : Int
  MaxStore : Int
deriving DecidableEq

/-- Mirrors Go `JetStreamAccountLimits`. -/
structure JetStreamAccountLimits where
  MaxMemory : Int
  MaxStore : Int
  MaxStreams : Int
  MaxConsumers : Int
deriving DecidableEq

/-- Mirrors Go `jsAccount`: the per-account JetStream state.  `streams` keeps
just the stream names (the map keys); stream objects live in the external
storage engine. -/
structure jsAccount where
  limits : JetStreamAccountLimits
  memReserved : Int
  memUsed : Int
  storeReserved : Int
  storeUsed : Int
  streams : List (List Char)
deriving DecidableEq

/-- Mirrors Go `jetStream`: the server-wide ledger plus the account map.
Accounts are identified by `Nat`; `sysAcc` is the system account's id. -/
structure jetStream where
  config : JetStreamConfig
  sysAcc : Nat
  accounts : List (Nat × jsAccount)
  memReserved : Int
  storeReserved : Int
deriving DecidableEq

/-- Fresh ledger right after `Server.EnableJetStream`: no accounts, both
reserved counters zero. -/
def freshJetStream (cfg : JetStreamConfig) (sys : Nat) : jetStream :=
  { config := cfg, sysAcc := sys, accounts := [], memReserved := 0, storeReserved := 0 }

/-- Mirrors Go `jetStream.dynamicAccountLimits`: the whole server quota,
no stream/consumer caps. -/
def dynamicAccountLimits (js : jetStream) : JetStreamAccountLimits :=
  { MaxMemory := js.config.MaxMemory, MaxStore := js.config.MaxStore,
    MaxStreams := -1, MaxConsumers := -1 }

/-- Mirrors Go `jetStream.sufficientResources` for non-nil limits: memory is
checked first, then store. -/
def sufficientResources (js : jetStream) (limits : JetStreamAccountLimits) :
    Except JetStreamError Unit :=
  if js.memReserved + limits.MaxMemory > js.config.MaxMemory then
    .error .insufficientMemory
  else if js.storeReserved + limits.MaxStore > js.config.MaxStore then
    .error .insufficientStorage
  else
    .ok ()

/-- Mirrors Go `jetStream.reserveResources`: adds only positive components. -/
def reserveResources (js : jetStream) (limits : JetStreamAccountLimits) : jetStream :=
  let js1 := if limits.MaxMemory > 0 then
    { js with memReserved := js.memReserved + limits.MaxMemory } else js
  if limits.MaxStore > 0 then
    { js1 with storeReserved := js1.storeReserved + limits.MaxStore } else js1

/-- Mirrors Go `jetStream.releaseResources`: subtracts only positive components. -/
def releaseResources (js : jetStream) (limits : JetStreamAccountLimits) : jetStream :=
  let js1 := if limits.MaxMemory > 0 then
    { js with memReserved := js.memReserved - limits.MaxMemory } else js
  if limits.MaxStore > 0 then
    { js1 with storeReserved := js1.storeReserved - limits.MaxStore } else js1

/-- Mirrors Go `diffCheckedLimits`: the delta is taken only over
`MaxMemory`/`MaxStore`; the other fields are the zero value. -/
def diffCheckedLimits (a b : JetStreamAccountLimits) : JetStreamAccountLimits :=
  { MaxMemory := b.MaxMemory - a.MaxMemory, MaxStore := b.MaxStore - a.MaxStore,
    MaxStreams := 0, MaxConsumers := 0 }

/-- Mirrors Go `jetStream.lookupAccount` (a map lookup). -/
def lookupAccount (js : jetStream) (a : Nat) : Option jsAccount :=
  (js.accounts.find? (fun p => p.1 == a)).map Prod.snd

/-- Mirrors Go `Account.EnableJetStream`.  The result pairs the error (if the
call returned early) with the ledger state at return time; the Go code mutates
the ledger only after every check has passed, which the translation preserves
by returning the input state on each early-return path. -/
def enableJetStream (js : jetStream) (a : Nat)
    (limits? : Option JetStreamAccountLimits) : Option JetStreamError × jetStream :=
  if a = js.sysAcc then (some .forbidden, js)
  else
    let limits := limits?.getD (dynamicAccountLimits js)
    if (lookupAccount js a).isSome then (some .alreadyEnabled, js)
    else
      match sufficientResources js limits with
      | .error e => (some e, js)
      | .ok _ =>
        let jsa : jsAccount :=
          { limits := limits, memReserved := 0, memUsed := 0,
            storeReserved := 0, storeUsed := 0, streams := [] }
        (none, reserveResources { js with accounts := (a, jsa) :: js.accounts } limits)

/-- Replaces the stored limits of the entry keyed `a` (Go: `jsa.limits = *limits`). -/
def replaceLimitsFun (a : Nat) (limits : JetStreamAccountLimits)
    (p : Nat × jsAccount) : Nat × jsAccount :=
  if p.1 = a then (p.1, { p.2 with limits := limits }) else p

/-- Mirrors Go `Account.UpdateJetStreamLimits`: compute the delta, admit it via
`sufficientResources`, then `releaseResources(old)`, `reserveResources(new)`,
and store the new limits on the account. -/
def updateJetStreamLimits (js : jetStream) (a : Nat)
    (limits? : Option JetStreamAccountLimits) : Option JetStreamError × jetStream :=
  match lookupAccount js a with
  | none => (some .notEnabledForAccount, js)
  | some jsa =>
    let limits := limits?.getD (dynamicAccountLimits js)
    let dl := diffCheckedLimits jsa.limits limits
    match sufficientResources js dl with
    | .error e => (some e, js)
    | .ok _ =>
      let js1 := reserveResources (releaseResources js jsa.limits) limits
      (none, { js1 with accounts := js1.accounts.map (replaceLimitsFun a limits) })

/-- Mirrors Go `Account.DisableJetStream` / `jetStream.disableJetStream`:
errors when the account is not enabled, otherwise removes the account from the
map and releases its reservation. -/
def disableJetStream (js : jetStream) (a : Nat) : Option JetStreamError × jetStream :=
  match lookupAccount js a with
  | none => (some .notEnabledForAccount, js)
  | some jsa =>
    (none, releaseResources { js with accounts := js.accounts.filter (fun p => p.1 != a) }
      jsa.limits)

/-- One account-lifecycle operation against the ledger. -/
inductive Op where
  | enable (a : Nat) (limits : Option JetStreamAccountLimits)
  | update (a : Nat) (limits : Option JetStreamAccountLimits)
  | disable (a : Nat)
deriving DecidableEq

def applyOp (js : jetStream) : Op → Option JetStreamError × jetStream
  | .enable a lim => enableJetStream js a lim
  | .update a lim => updateJetStreamLimits js a lim
  | .disable a => disableJetStream js a

/-- Runs a sequence of operations, requiring every one of them to succeed. -/
def runOps : jetStream → List Op → Option jetStream
  | js, [] => some js
  | js, op :: rest =>
    match applyOp js op with
    | (none, js1) => runOps js1 rest
    | (some _, _) => none

/-- The positive part of an integer: what `reserveResources`/`releaseResources`
actually add or subtract for one component. -/
def posClip (x : Int) : Int := if x > 0 then x else 0

/-- Sum of `g` over the stored limits of all enabled accounts. -/
def limSum (g : JetStreamAccountLimits → Int) (l : List (Nat × jsAccount)) : Int :=
  (l.map (fun p => g p.2.limits)).sum

/-- Sum of the positive parts of `MaxMemory` over enabled accounts. -/
def memSum (l : List (Nat × jsAccount)) : Int :=
  limSum (fun lim => posClip lim.MaxMemory) l

/-- Sum of the positive parts of `MaxStore` over enabled accounts. -/
def storeSum (l : List (Nat × jsAccount)) : Int :=
  limSum (fun lim => posClip lim.MaxStore) l

/-- Plain sum of `MaxMemory` over enabled accounts (the quantity named by the
spec's invariant). -/
def memSumPlain (l : List (Nat × jsAccount)) : Int :=
  limSum (fun lim => lim.MaxMemory) l

/-- Plain sum of `MaxStore` over enabled accounts. -/
def storeSumPlain (l : List (Nat × jsAccount)) : Int :=
  limSum (fun lim => lim.MaxStore) l

/-- Ledger bookkeeping invariant maintained by the lifecycle operations. -/
def ledgerInv (js : jetStream) : Prop :=
  (js.accounts.map Prod.fst).Nodup ∧
  js.memReserved = memSum js.accounts ∧
  js.storeReserved = storeSum js.accounts

/-- Mirrors Go `StreamConfig` restricted to the fields `jetstream.go` reads or
writes (`Name`, `Subjects`, `Template`, `MaxConsumers`, `MaxBytes`, `Replicas`,
`Storage`); the storage-engine-only fields are irrelevant to these claims. -/
structure StreamConfig where
  Name : List Char
  Subjects : List (List Char)
  Template : List Char
  MaxConsumers : Int
  MaxBytes : Int
  Replicas : Int
  Storage : StorageType
deriving DecidableEq

/-- Mirrors Go `jsAccount.checkBytesLimits`: compares against the per-account
reserved counters and limits. -/
def checkBytesLimits (jsa : jsAccount) (addBytes : Int) (storage : StorageType) :
    Except JetStreamError Unit :=
  match storage with
  | .MemoryStorage =>
    if jsa.memReserved + addBytes > jsa.limits.MaxMemory then
      .error .insufficientMemory
    else .ok ()
  | .FileStorage =>
    if jsa.storeReserved + addBytes > jsa.limits.MaxStore then
      .error .insufficientStorage
    else .ok ()

/-- Mirrors Go `jsAccount.checkLimits`: stream count cap, consumer cap, then
byte reservation check scaled by replicas. -/
def checkLimits (jsa : jsAccount) (config : StreamConfig) : Except JetStreamError Unit :=
  if jsa.limits.MaxStreams > 0 ∧ (jsa.streams.length : Int) ≥ jsa.limits.MaxStreams then
    .error .maxStreamsReached
  else if config.MaxConsumers > 0 ∧ jsa.limits.MaxConsumers > 0 ∧
      config.MaxConsumers > jsa.limits.MaxConsumers then
    .error .maxConsumersExceeded
  else if config.MaxBytes > 0 then
    checkBytesLimits jsa (config.MaxBytes * config.Replicas) config.Storage
  else
    .ok ()

/-- Mirrors Go `isValidName`: non-empty and free of the characters dot, star,
and greater-than (`strings.ContainsAny(name, ".*>")`). -/
def isValidName (name : List Char) : Bool :=
  if name = [] then false
  else !(name.any fun c => c = '.' || c = '*' || c = '>')

/-- Mirrors Go `CanonicalName`: replace every token separator dot with an
underscore (`strings.ReplaceAll(name, ".", "_")`, character-wise). -/
def CanonicalName (name : List Char) : List Char :=
  name.map fun c => if c = '.' then '_' else c

/-- Mirrors Go `StreamTemplate` (with its embedded `StreamTemplateConfig`):
skeleton config, cap, and the list of materialized stream names.  `MaxStreams`
is a `uint32` in Go, hence `Nat`. -/
structure StreamTemplate where
  Name : List Char
  Config : StreamConfig
  MaxStreams : Nat
  streams : List (List Char)
deriving DecidableEq

/-- Outcome of `processInboundTemplateMsg` up to the external `AddStream`
call boundary: the message is dropped because the stream already exists,
dropped because the template is at its cap, or a stream is created —
`createdStream cfg` records that `acc.AddStream` was invoked with `cfg`. -/
inductive TemplateMsgResult where
  | droppedExisting
  | droppedAtLimit
  | createdStream (cfg : StreamConfig)
deriving DecidableEq

/-- Mirrors Go `StreamTemplate.processInboundTemplateMsg`, with the account's
stream map passed as the list of its keys (`jsaStreams`).  Returns the outcome
and the updated template. -/
def processInboundTemplateMsg (jsaStreams : List (List Char)) (t : StreamTemplate)
    (subject : List Char) : TemplateMsgResult × StreamTemplate :=
  let cn := CanonicalName subject
  if cn ∈ jsaStreams then
    (.droppedExisting, t)
  else
    let cfg0 := { t.Config with Template := t.Name }
    if t.streams.length ≥ t.MaxStreams then
      (.droppedAtLimit, t)
    else
      let t1 := { t with streams := t.streams ++ [cn] }
      let cfg := { cfg0 with Name := cn, Subjects := [subject] }
      (.createdStream cfg, t1)

/-- Drives `processInboundTemplateMsg` over a sequence of inbound messages,
threading the account's stream-name list: on `createdStream cfg` the external
`AddStream` registers the stream under `cfg.Name` in the account map. -/
def processTemplateMsgs (jsaStreams : List (List Char)) (t : StreamTemplate) :
    List (List Char) → List TemplateMsgResult × (List (List Char) × StreamTemplate)
  | [] => ([], (jsaStreams, t))
  | subject :: rest =>
    let step := processInboundTemplateMsg jsaStreams t subject
    let js1 := match step.1 with
      | .createdStream cfg => cfg.Name :: jsaStreams
      | _ => jsaStreams
    let next := processTemplateMsgs js1 step.2 rest
    (step.1 :: next.1, next.2)

/-- One directory entry seen by the recovery walk: the directory name, the
bytes of its meta file (`none` when the read fails), and the characters of its
checksum file (`none` when the file is missing or unreadable). -/
structure RecoveredEntry where
  dirName : List Char
  metaInf : Option (List Nat)
  metaSum : Option (List Char)
deriving DecidableEq

/-- Lowercase hex digit, mirroring Go `encoding/hex` `hextable`. -/
def hexDigit (n : Nat) : Char :=
  if n < 10 then Char.ofNat (48 + n) else Char.ofNat (87 + n)

/-- Mirrors Go `hex.EncodeToString`: two lowercase hex digits per byte,
high nibble first. -/
def hexEncode (bs : List Nat) : List Char :=
  bs.flatMap fun b => [hexDigit (b / 16), hexDigit (b % 16)]

/-- Integrity gate of one recovery entry, mirroring the per-directory checks in
`Account.EnableJetStream`: a failed meta read, a missing checksum file, or a
checksum that differs from the lowercase hex of the keyed hash each cause a
warn-and-continue skip; otherwise the verified meta bytes flow onward. -/
def verifyEntry (hash : List Nat → List Nat) (e : RecoveredEntry) : Option (List Nat) :=
  match e.metaInf with
  | none => none
  | some buf =>
    match e.metaSum with
    | none => none
    | some sum => if hexEncode (hash buf) = sum then some buf else none

/-- The key string for the templates pass: `sha256.Sum256([]byte("templates"))`. -/
def templatesKeyName : List Char := "templates".toList

/-- Templates pass of the recovery walk: every directory is checked with the
single key `SHA-256("templates")`; entries that fail any check are skipped and
the rest are processed.  `hh64` abstracts keyed HighwayHash-64, `sha` abstracts
SHA-256 of a name. -/
def recoverTemplates (hh64 : List Nat → List Nat → List Nat)
    (sha : List Char → List Nat) (entries : List RecoveredEntry) : List (List Nat) :=
  entries.filterMap (verifyEntry (hh64 (sha templatesKeyName)))

/-- Streams pass of the recovery walk: each directory is checked with the
per-directory key `SHA-256(dir_name)`. -/
def recoverStreams (hh64 : List Nat → List Nat → List Nat)
    (sha : List Char → List Nat) (entries : List RecoveredEntry) : List (List Nat) :=
  entries.filterMap (fun e => verifyEntry (hh64 (sha e.dirName)) e)

theorem reserveResources_eq (js : jetStream) (l : JetStreamAccountLimits) :
    reserveResources js l =
      { js with memReserved := js.memReserved + posClip l.MaxMemory,
                storeReserved := js.storeReserved + posClip l.MaxStore } := by
  unfold reserveResources posClip
  by_cases h1 : l.MaxMemory > 0 <;> by_cases h2 : l.MaxStore > 0 <;> simp [h1, h2]

theorem releaseResources_eq (js : jetStream) (l : JetStreamAccountLimits) :
    releaseResources js l =
      { js with memReserved := js.memReserved - posClip l.MaxMemory,
                storeReserved := js.storeReserved - posClip l.MaxStore } := by
  unfold releaseResources posClip
  by_cases h1 : l.MaxMemory > 0 <;> by_cases h2 : l.MaxStore > 0 <;> simp [h1, h2]

/-- C5: `sufficientResources` accepts exactly when both reserved-plus-requested
totals fit under the server caps; on failure it reports insufficient memory
first, and insufficient storage only when memory fits. -/
theorem sufficientResources_spec (js : jetStream) (l : JetStreamAccountLimits) :
    (sufficientResources js l = .ok () ↔
      js.memReserved + l.MaxMemory ≤ js.config.MaxMemory ∧
      js.storeReserved + l.MaxStore ≤ js.config.MaxStore) ∧
    (js.config.MaxMemory < js.memReserved + l.MaxMemory →
      sufficientResources js l = .error .insufficientMemory) ∧
    (js.memReserved + l.MaxMemory ≤ js.config.MaxMemory →
      js.config.MaxStore < js.storeReserved + l.MaxStore →
      sufficientResources js l = .error .insufficientStorage) := by
  by_cases h1 : js.memReserved + l.MaxMemory > js.config.MaxMemory <;>
    by_cases h2 : js.storeReserved + l.MaxStore > js.config.MaxStore <;>
    simp [sufficientResources, h1, h2] <;> omega

/-- C5 witness: a concrete accepting instance through the theorem. -/
theorem sufficientResources_spec_witness :
    sufficientResources (freshJetStream ⟨100, 200⟩ 0) ⟨10, 20, -1, -1⟩ = .ok () :=
  (sufficientResources_spec (freshJetStream ⟨100, 200⟩ 0) ⟨10, 20, -1, -1⟩).1.mpr
    (by decide)

/-- C7: enabling JetStream on the system account is always rejected as
forbidden, and the ledger — reserved counters and the set of enabled
accounts — is returned exactly unchanged. -/
theorem enableJetStream_system_account (js : jetStream)
    (lim : Option JetStreamAccountLimits) :
    enableJetStream js js.sysAcc lim = (some .forbidden, js) ∧
    (enableJetStream js js.sysAcc lim).2.memReserved = js.memReserved ∧
    (enableJetStream js js.sysAcc lim).2.storeReserved = js.storeReserved ∧
    (enableJetStream js js.sysAcc lim).2.accounts = js.accounts := by
  simp [enableJetStream]

/-- C6: `checkLimits` admits a stream config exactly when the stream-count cap,
the consumer cap, and (for `MaxBytes > 0`) the replica-scaled byte reservation
against the storage-type limit all pass. -/
theorem checkLimits_spec (jsa : jsAccount) (config : StreamConfig) :
    checkLimits jsa config = .ok () ↔
      ¬(jsa.limits.MaxStreams > 0 ∧
          (jsa.streams.length : Int) ≥ jsa.limits.MaxStreams) ∧
      ¬(config.MaxConsumers > 0 ∧ jsa.limits.MaxConsumers > 0 ∧
          config.MaxConsumers > jsa.limits.MaxConsumers) ∧
      (config.MaxBytes > 0 →
        (config.Storage = .MemoryStorage →
          jsa.memReserved + config.MaxBytes * config.Replicas ≤ jsa.limits.MaxMemory) ∧
        (config.Storage = .FileStorage →
          jsa.storeReserved + config.MaxBytes * config.Replicas ≤ jsa.limits.MaxStore)) := by
  rcases config with ⟨n, sub, tpl, mc, mb, rep, st⟩
  cases st <;>
    simp only [checkLimits, checkBytesLimits] <;>
    split_ifs <;>
    simp_all <;>
    omega

/-- C6 witness: a concrete admitted config through the theorem. -/
theorem checkLimits_spec_witness :
    checkLimits ⟨⟨100, 100, 5, 5⟩, 10, 0, 10, 0, [['a']]⟩
      ⟨['s'], [], [], 3, 4, 2, .MemoryStorage⟩ = .ok () :=
  (checkLimits_spec ⟨⟨100, 100, 5, 5⟩, 10, 0, 10, 0, [['a']]⟩
      ⟨['s'], [], [], 3, 4, 2, .MemoryStorage⟩).mpr (by decide)

theorem isValidName_iff (n : List Char) :
    isValidName n = true ↔ n ≠ [] ∧ ∀ c ∈ n, ¬(c = '.' ∨ c = '*' ∨ c = '>') := by
  by_cases hn : n = [] <;> simp [isValidName, hn, List.any_eq_true, and_assoc]

theorem splitOn_all_valid_ne_nil (s : List Char)
    (h : ∀ t ∈ s.splitOn '.', isValidName t = true) : s ≠ [] := by
  intro hs; subst hs
  have h0 := h [] (by simp)
  simp [isValidName] at h0

theorem splitOn_chars (s : List Char)
    (h : ∀ t ∈ s.splitOn '.', ∀ c ∈ t, c ≠ '*' ∧ c ≠ '>') :
    ∀ c ∈ s, c ≠ '*' ∧ c ≠ '>' := by
  induction s with
  | nil => simp
  | cons a s ih =>
    intro c hc
    by_cases ha : a = '.'
    · have hsplit : (a :: s).splitOn '.' = [] :: s.splitOn '.' := by
        simp [List.splitOn, List.splitOnP_cons, ha]
      rw [hsplit] at h
      rcases List.mem_cons.mp hc with rfl | hcs
      · subst ha; exact ⟨by decide, by decide⟩
      · exact ih (fun t ht => h t (List.mem_cons_of_mem _ ht)) c hcs
    · obtain ⟨t0, rest, hrest⟩ : ∃ t0 rest, s.splitOn '.' = t0 :: rest := by
        rcases hsp : s.splitOn '.' with _ | ⟨t0, rest⟩
        · exact absurd hsp (by simpa [List.splitOn] using List.splitOnP_ne_nil (· == '.') s)
        · exact ⟨t0, rest, rfl⟩
      have hsplit : (a :: s).splitOn '.' = (a :: t0) :: rest := by
        simp only [List.splitOn, List.splitOnP_cons] at hrest ⊢
        rw [if_neg (by simp [ha]), hrest]
        rfl
      rw [hsplit] at h
      rcases List.mem_cons.mp hc with rfl | hcs
      · exact h (c :: t0) (by simp) c (by simp)
      · refine ih ?_ c hcs
        intro t ht c' hc'
        rw [hrest] at ht
        rcases List.mem_cons.mp ht with rfl | htr
        · exact h (a :: t) (by simp) c' (List.mem_cons_of_mem _ hc')
        · exact h t (by simp [htr]) c' hc'

/-- C8: `CanonicalName` never leaves a dot in its output, and whenever the
subject is a sequence of dot-separated tokens that each pass `isValidName`,
the canonical name itself passes `isValidName`. -/
theorem canonicalName_law (s : List Char) :
    '.' ∉ CanonicalName s ∧
    ((∀ t ∈ s.splitOn '.', isValidName t = true) →
      isValidName (CanonicalName s) = true) := by
  constructor
  · intro hmem
    simp only [CanonicalName, List.mem_map] at hmem
    obtain ⟨x, hx, hfx⟩ := hmem
    by_cases hxd : x = '.'
    · rw [if_pos hxd] at hfx; exact absurd hfx (by decide)
    · rw [if_neg hxd] at hfx; exact hxd hfx
  · intro h
    have hne : s ≠ [] := splitOn_all_valid_ne_nil s h
    have hch : ∀ c ∈ s, c ≠ '*' ∧ c ≠ '>' := by
      apply splitOn_chars
      intro t ht c hc
      have h1 := ((isValidName_iff t).mp (h t ht)).2 c hc
      push_neg at h1
      exact ⟨h1.2.1, h1.2.2⟩
    rw [isValidName_iff]
    constructor
    · simpa [CanonicalName] using hne
    · intro c hc
      simp only [CanonicalName, List.mem_map] at hc
      obtain ⟨x, hx, rfl⟩ := hc
      by_cases hxd : x = '.'
      · rw [if_pos hxd]; decide
      · rw [if_neg hxd]
        push_neg
        exact ⟨hxd, (hch x hx).1, (hch x hx).2⟩

/-- C8 witness: the theorem applied to the concrete subject string orders.new. -/
theorem canonicalName_law_witness :
    isValidName (CanonicalName ['o', 'r', 'd', 'e', 'r', 's', '.', 'n', 'e', 'w']) = true :=
  (canonicalName_law ['o', 'r', 'd', 'e', 'r', 's', '.', 'n', 'e', 'w']).2 (by decide)

theorem verifyEntry_eq_none (hash : List Nat → List Nat) (e : RecoveredEntry)
    (h : e.metaSum = none ∨
      ∀ buf, e.metaInf = some buf → e.metaSum ≠ some (hexEncode (hash buf))) :
    verifyEntry hash e = none := by
  rcases e with ⟨nm, inf, sum⟩
  rcases inf with _ | buf
  · rfl
  rcases sum with _ | sum
  · rfl
  rcases h with h | h
  · exact absurd h (by simp)
  · have hne := h buf rfl
    show (if hexEncode (hash buf) = sum then some buf else none) = none
    rw [if_neg]
    intro hEq
    exact hne (by rw [hEq])

/-- C2: during recovery, a template directory whose checksum file is missing or
whose content differs from the lowercase hex of the keyed 64-bit hash of its
meta bytes (key derived from the string templates) is skipped, and the
remaining directories recover exactly as they would without it; the same holds
for a stream directory hashed with the key derived from its own directory
name.  The skipped entity contributes nothing (it is never partially adopted),
quantified over any hash and key-derivation functions. -/
theorem recovery_checksum_skip (hh64 : List Nat → List Nat → List Nat)
    (sha : List Char → List Nat) (l1 l2 : List RecoveredEntry) (e : RecoveredEntry) :
    ((e.metaSum = none ∨
        ∀ buf, e.metaInf = some buf →
          e.metaSum ≠ some (hexEncode (hh64 (sha templatesKeyName) buf))) →
      recoverTemplates hh64 sha (l1 ++ e :: l2) =
        recoverTemplates hh64 sha l1 ++ recoverTemplates hh64 sha l2) ∧
    ((e.metaSum = none ∨
        ∀ buf, e.metaInf = some buf →
          e.metaSum ≠ some (hexEncode (hh64 (sha e.dirName) buf))) →
      recoverStreams hh64 sha (l1 ++ e :: l2) =
        recoverStreams hh64 sha l1 ++ recoverStreams hh64 sha l2) := by
  constructor
  · intro h
    have h0 : verifyEntry (hh64 (sha templatesKeyName)) e = none :=
      verifyEntry_eq_none _ _ h
    simp [recoverTemplates, List.filterMap_append, List.filterMap_cons, h0]
  · intro h
    have h0 : verifyEntry (hh64 (sha e.dirName)) e = none :=
      verifyEntry_eq_none _ _ h
    simp [recoverStreams, List.filterMap_append, List.filterMap_cons, h0]

/-- C2 witness: a concrete run where the middle template entry misses its
checksum file and is skipped while its sibling recovers. -/
theorem recovery_checksum_skip_witness :
    recoverTemplates (fun _ b => b) (fun _ => [])
        ([⟨['g'], some [0], some (hexEncode [0])⟩] ++
          (⟨['a'], some [1], none⟩ : RecoveredEntry) :: []) =
      recoverTemplates (fun _ b => b) (fun _ => [])
          [⟨['g'], some [0], some (hexEncode [0])⟩] ++
        recoverTemplates (fun _ b => b) (fun _ => []) [] :=
  (recovery_checksum_skip (fun _ b => b) (fun _ => [])
    [⟨['g'], some [0], some (hexEncode [0])⟩] [] ⟨['a'], some [1], none⟩).1 (Or.inl rfl)

/-- C3: for an inbound message on a template subject, if the canonical name is
already a stream of the account the message is dropped with the template
untouched; otherwise, at the cap the message is dropped with the template
untouched and no stream created; otherwise the canonical name is appended to
the template's stream list and `AddStream` is invoked with the skeleton clone
whose Name, Subjects, and Template fields are overridden as specified. -/
theorem processInboundTemplateMsg_spec (jsaStreams : List (List Char))
    (t : StreamTemplate) (subject : List Char) :
    (CanonicalName subject ∈ jsaStreams →
      processInboundTemplateMsg jsaStreams t subject = (.droppedExisting, t)) ∧
    (CanonicalName subject ∉ jsaStreams → t.streams.length ≥ t.MaxStreams →
      processInboundTemplateMsg jsaStreams t subject = (.droppedAtLimit, t)) ∧
    (CanonicalName subject ∉ jsaStreams → t.streams.length < t.MaxStreams →
      processInboundTemplateMsg jsaStreams t subject =
        (.createdStream { t.Config with
            Name := CanonicalName subject,
            Subjects := [subject],
            Template := t.Name },
          { t with streams := t.streams ++ [CanonicalName subject] })) := by
  refine ⟨fun h => ?_, fun h1 h2 => ?_, fun h1 h2 => ?_⟩
  · simp [processInboundTemplateMsg, h]
  · simp [processInboundTemplateMsg, h1, h2]
  · simp [processInboundTemplateMsg, h1, Nat.not_le.mpr h2]

/-- Concrete template used to witness C3. -/
def c3Tmpl : StreamTemplate :=
  ⟨['T'], ⟨['_'], [['x']], [], 0, 0, 1, .FileStorage⟩, 2, []⟩

/-- C3 witness: the creation branch of the theorem at a concrete subject. -/
theorem processInboundTemplateMsg_spec_witness :
    processInboundTemplateMsg [] c3Tmpl ['o', '.', 'n'] =
      (.createdStream { c3Tmpl.Config with
          Name := CanonicalName ['o', '.', 'n'],
          Subjects := [['o', '.', 'n']],
          Template := c3Tmpl.Name },
        { c3Tmpl with streams := c3Tmpl.streams ++ [CanonicalName ['o', '.', 'n']] }) :=
  (processInboundTemplateMsg_spec [] c3Tmpl ['o', '.', 'n']).2.2 (by decide) (by decide)

theorem processInboundTemplateMsg_zero_cap (t : StreamTemplate) (h : t.MaxStreams = 0)
    (jsaStreams : List (List Char)) (subject : List Char) :
    processInboundTemplateMsg jsaStreams t subject =
      (if CanonicalName subject ∈ jsaStreams then .droppedExisting else .droppedAtLimit, t) := by
  by_cases hc : CanonicalName subject ∈ jsaStreams <;>
    simp [processInboundTemplateMsg, hc, h]

/-- C10: a template with `MaxStreams = 0` treats every inbound message as at
the limit: no message ever reaches `AddStream`, the template (hence its stream
list) never changes, and over any sequence of messages the account's stream
map and the template are left exactly as they started with every message
dropped. -/
theorem template_zero_cap_spec (t : StreamTemplate) (h : t.MaxStreams = 0) :
    (∀ jsaStreams subject,
      (processInboundTemplateMsg jsaStreams t subject).2 = t ∧
      ∀ cfg, (processInboundTemplateMsg jsaStreams t subject).1 ≠ .createdStream cfg) ∧
    (∀ jsaStreams subjects,
      (processTemplateMsgs jsaStreams t subjects).2 = (jsaStreams, t) ∧
      ∀ r ∈ (processTemplateMsgs jsaStreams t subjects).1,
        ∀ cfg, r ≠ .createdStream cfg) := by
  constructor
  · intro js subject
    rw [processInboundTemplateMsg_zero_cap t h js subject]
    refine ⟨rfl, fun cfg => ?_⟩
    by_cases hc : CanonicalName subject ∈ js <;> simp [hc]
  · intro js subjects
    induction subjects generalizing js with
    | nil => simp [processTemplateMsgs]
    | cons subj rest ih =>
      rw [processTemplateMsgs]
      rw [processInboundTemplateMsg_zero_cap t h js subj]
      by_cases hc : CanonicalName subj ∈ js <;>
        · simp only [hc, if_pos, if_neg, ite_true, ite_false]
          obtain ⟨ih1, ih2⟩ := ih js
          refine ⟨ih1, ?_⟩
          intro r hr cfg
          rcases List.mem_cons.mp hr with rfl | hrs
          · simp
          · exact ih2 r hrs cfg

theorem replaceLimitsFun_fst (a : Nat) (lim : JetStreamAccountLimits)
    (p : Nat × jsAccount) : (replaceLimitsFun a lim p).1 = p.1 := by
  unfold replaceLimitsFun
  split <;> rfl

theorem map_replaceLimitsFun_id (a : Nat) (lim : JetStreamAccountLimits) :
    ∀ l : List (Nat × jsAccount), (∀ p ∈ l, p.1 ≠ a) →
      l.map (replaceLimitsFun a lim) = l := by
  intro l
  induction l with
  | nil => intro _; rfl
  | cons p rest ih =>
    intro h
    have hp : p.1 ≠ a := h p (List.mem_cons_self p rest)
    simp only [List.map_cons, replaceLimitsFun, if_neg hp]
    rw [ih (fun q hq => h q (List.mem_cons_of_mem p hq))]

theorem filter_ne_key_id (a : Nat) :
    ∀ l : List (Nat × jsAccount), (∀ p ∈ l, p.1 ≠ a) →
      l.filter (fun p => p.1 != a) = l := by
  intro l h
  apply List.filter_eq_self.mpr
  intro p hp
  simpa using h p hp

theorem keys_map_replace (a : Nat) (lim : JetStreamAccountLimits)
    (l : List (Nat × jsAccount)) :
    (l.map (replaceLimitsFun a lim)).map Prod.fst = l.map Prod.fst := by
  rw [List.map_map]
  apply List.map_congr_left
  intro p _
  exact replaceLimitsFun_fst a lim p

theorem not_mem_keys (a : Nat) (l : List (Nat × jsAccount))
    (h : ∀ p ∈ l, p.1 ≠ a) : a ∉ l.map Prod.fst := by
  intro hmem
  obtain ⟨p, hp, hpa⟩ := List.mem_map.mp hmem
  exact h p hp hpa

theorem limSum_cons (g : JetStreamAccountLimits → Int) (p : Nat × jsAccount)
    (l : List (Nat × jsAccount)) :
    limSum g (p :: l) = g p.2.limits + limSum g l := by
  simp [limSum]

theorem limSum_map_replace (g : JetStreamAccountLimits → Int) (a : Nat)
    (lim : JetStreamAccountLimits) :
    ∀ (l : List (Nat × jsAccount)) (q : Nat × jsAccount),
      (l.map Prod.fst).Nodup → l.find? (fun p => p.1 == a) = some q →
      limSum g (l.map (replaceLimitsFun a lim)) = limSum g l - g q.2.limits + g lim := by
  intro l
  induction l with
  | nil => intro q _ hq; simp at hq
  | cons p rest ih =>
    intro q hnd hq
    have hnd1 : (rest.map Prod.fst).Nodup := (List.nodup_cons.mp hnd).2
    by_cases hp : p.1 = a
    · rw [List.find?_cons_of_pos _ (by simpa using hp)] at hq
      have hpq : p = q := by injection hq
      subst hpq
      have hrest : ∀ r ∈ rest, r.1 ≠ a := by
        intro r hr hra
        have hm : r.1 ∈ rest.map Prod.fst := List.mem_map_of_mem Prod.fst hr
        rw [hra, ← hp] at hm
        exact (List.nodup_cons.mp (by simpa using hnd)).1 hm
      simp only [List.map_cons, replaceLimitsFun, if_pos hp]
      rw [map_replaceLimitsFun_id a lim rest hrest]
      rw [limSum_cons, limSum_cons]
      ring
    · rw [List.find?_cons_of_neg _ (by simpa using hp)] at hq
      simp only [List.map_cons, replaceLimitsFun, if_neg hp]
      rw [limSum_cons, limSum_cons, ih q hnd1 hq]
      ring

theorem limSum_filter_erase (g : JetStreamAccountLimits → Int) (a : Nat) :
    ∀ (l : List (Nat × jsAccount)) (q : Nat × jsAccount),
      (l.map Prod.fst).Nodup → l.find? (fun p => p.1 == a) = some q →
      limSum g (l.filter (fun p => p.1 != a)) = limSum g l - g q.2.limits := by
  intro l
  induction l with
  | nil => intro q _ hq; simp at hq
  | cons p rest ih =>
    intro q hnd hq
    have hnd1 : (rest.map Prod.fst).Nodup := (List.nodup_cons.mp hnd).2
    by_cases hp : p.1 = a
    · rw [List.find?_cons_of_pos _ (by simpa using hp)] at hq
      have hpq : p = q := by injection hq
      subst hpq
      have hrest : ∀ r ∈ rest, r.1 ≠ a := by
        intro r hr hra
        have hm : r.1 ∈ rest.map Prod.fst := List.mem_map_of_mem Prod.fst hr
        rw [hra, ← hp] at hm
        exact (List.nodup_cons.mp (by simpa using hnd)).1 hm
      rw [List.filter_cons_of_neg (by simpa using hp)]
      rw [filter_ne_key_id a rest hrest, limSum_cons]
      ring
    · rw [List.find?_cons_of_neg _ (by simpa using hp)] at hq
      rw [List.filter_cons_of_pos (by simpa using hp)]
      rw [limSum_cons, limSum_cons, ih q hnd1 hq]
      ring

theorem find?_map_replace (a : Nat) (lim : JetStreamAccountLimits) :
    ∀ l : List (Nat × jsAccount),
      (l.map (replaceLimitsFun a lim)).find? (fun p => p.1 == a) =
        (l.find? (fun p => p.1 == a)).map (replaceLimitsFun a lim) := by
  intro l
  induction l with
  | nil => rfl
  | cons p rest ih =>
    by_cases hp : p.1 = a
    · rw [List.map_cons,
        List.find?_cons_of_pos _ (by simpa [replaceLimitsFun_fst] using hp),
        List.find?_cons_of_pos _ (by simpa using hp)]
      rfl
    · rw [List.map_cons,
        List.find?_cons_of_neg _ (by simpa [replaceLimitsFun_fst] using hp),
        List.find?_cons_of_neg _ (by simpa using hp)]
      exact ih

theorem lookupAccount_some (js : jetStream) (a : Nat) (jsa : jsAccount)
    (h : lookupAccount js a = some jsa) :
    ∃ q, js.accounts.find? (fun p => p.1 == a) = some q ∧ q.1 = a ∧ q.2 = jsa := by
  unfold lookupAccount at h
  cases hf : js.accounts.find? (fun p => p.1 == a) with
  | none => rw [hf] at h; simp at h
  | some q =>
    rw [hf] at h
    refine ⟨q, rfl, ?_, by simpa using h⟩
    have := List.find?_some hf
    simpa using this

theorem lookupAccount_none (js : jetStream) (a : Nat)
    (h : lookupAccount js a = none) : ∀ p ∈ js.accounts, p.1 ≠ a := by
  unfold lookupAccount at h
  cases hf : js.accounts.find? (fun p => p.1 == a) with
  | none =>
    intro p hp
    have := List.find?_eq_none.mp hf p hp
    simpa using this
  | some q => rw [hf] at h; simp at h

theorem enableJetStream_ok (js js' : jetStream) (a : Nat)
    (lim? : Option JetStreamAccountLimits)
    (h : enableJetStream js a lim? = (none, js')) :
    lookupAccount js a = none ∧
    js' = { js with
      accounts := (a, ⟨lim?.getD (dynamicAccountLimits js), 0, 0, 0, 0, []⟩) :: js.accounts,
      memReserved :=
        js.memReserved + posClip (lim?.getD (dynamicAccountLimits js)).MaxMemory,
      storeReserved :=
        js.storeReserved + posClip (lim?.getD (dynamicAccountLimits js)).MaxStore } := by
  unfold enableJetStream at h
  split at h
  · simp at h
  · dsimp only at h
    split at h
    · simp at h
    · split at h
      · simp at h
      · simp only [Prod.mk.injEq, true_and] at h
        refine ⟨?_, by rw [← h, reserveResources_eq]⟩
        cases hl : lookupAccount js a with
        | none => rfl
        | some v => simp_all

theorem updateJetStreamLimits_ok (js js' : jetStream) (a : Nat)
    (lim? : Option JetStreamAccountLimits)
    (h : updateJetStreamLimits js a lim? = (none, js')) :
    ∃ jsa, lookupAccount js a = some jsa ∧
      js' = { js with
        accounts :=
          js.accounts.map (replaceLimitsFun a (lim?.getD (dynamicAccountLimits js))),
        memReserved := js.memReserved - posClip jsa.limits.MaxMemory +
          posClip (lim?.getD (dynamicAccountLimits js)).MaxMemory,
        storeReserved := js.storeReserved - posClip jsa.limits.MaxStore +
          posClip (lim?.getD (dynamicAccountLimits js)).MaxStore } := by
  unfold updateJetStreamLimits at h
  split at h
  · simp at h
  · rename_i jsa hl
    dsimp only at h
    split at h
    · simp at h
    · simp only [Prod.mk.injEq, true_and] at h
      refine ⟨jsa, hl, ?_⟩
      rw [← h, releaseResources_eq, reserveResources_eq]

theorem disableJetStream_ok (js js' : jetStream) (a : Nat)
    (h : disableJetStream js a = (none, js')) :
    ∃ jsa, lookupAccount js a = some jsa ∧
      js' = { js with
        accounts := js.accounts.filter (fun p => p.1 != a),
        memReserved := js.memReserved - posClip jsa.limits.MaxMemory,
        storeReserved := js.storeReserved - posClip jsa.limits.MaxStore } := by
  unfold disableJetStream at h
  split at h
  · simp at h
  · rename_i jsa hl
    simp only [Prod.mk.injEq, true_and] at h
    exact ⟨jsa, hl, by rw [← h, releaseResources_eq]⟩

theorem applyOp_preserves (js js' : jetStream) (op : Op)
    (hInv : ledgerInv js) (h : applyOp js op = (none, js')) : ledgerInv js' := by
  obtain ⟨hnd, hm, hs⟩ := hInv
  cases op with
  | enable a lim =>
    obtain ⟨hlook, rfl⟩ := enableJetStream_ok js js' a lim h
    have hkeys := lookupAccount_none js a hlook
    refine ⟨?_, ?_, ?_⟩
    · dsimp only
      rw [List.map_cons, List.nodup_cons]
      exact ⟨not_mem_keys a js.accounts hkeys, hnd⟩
    · dsimp only
      rw [memSum, limSum_cons]
      rw [memSum] at hm
      dsimp only
      omega
    · dsimp only
      rw [storeSum, limSum_cons]
      rw [storeSum] at hs
      dsimp only
      omega
  | update a lim =>
    obtain ⟨jsa, hlook, rfl⟩ := updateJetStreamLimits_ok js js' a lim h
    obtain ⟨q, hfind, hqa, hq2⟩ := lookupAccount_some js a jsa hlook
    refine ⟨?_, ?_, ?_⟩
    · dsimp only
      rw [keys_map_replace]
      exact hnd
    · dsimp only
      rw [memSum, limSum_map_replace _ a _ js.accounts q hnd hfind, hq2]
      rw [memSum] at hm
      omega
    · dsimp only
      rw [storeSum, limSum_map_replace _ a _ js.accounts q hnd hfind, hq2]
      rw [storeSum] at hs
      omega
  | disable a =>
    obtain ⟨jsa, hlook, rfl⟩ := disableJetStream_ok js js' a h
    obtain ⟨q, hfind, hqa, hq2⟩ := lookupAccount_some js a jsa hlook
    refine ⟨?_, ?_, ?_⟩
    · dsimp only
      exact hnd.sublist ((List.filter_sublist _).map Prod.fst)
    · dsimp only
      rw [memSum, limSum_filter_erase _ a js.accounts q hnd hfind, hq2]
      rw [memSum] at hm
      omega
    · dsimp only
      rw [storeSum, limSum_filter_erase _ a js.accounts q hnd hfind, hq2]
      rw [storeSum] at hs
      omega

theorem limSum_congr (g1 g2 : JetStreamAccountLimits → Int) :
    ∀ l : List (Nat × jsAccount), (∀ p ∈ l, g1 p.2.limits = g2 p.2.limits) →
      limSum g1 l = limSum g2 l := by
  intro l
  induction l with
  | nil => intro _; rfl
  | cons p rest ih =>
    intro h
    rw [limSum_cons, limSum_cons, h p (List.mem_cons_self p rest),
      ih (fun q hq => h q (List.mem_cons_of_mem p hq))]

theorem ledgerInv_fresh (cfg : JetStreamConfig) (sys : Nat) :
    ledgerInv (freshJetStream cfg sys) :=
  ⟨by simp [freshJetStream], by simp [freshJetStream, memSum, limSum],
   by simp [freshJetStream, storeSum, limSum]⟩

theorem runOps_preserves : ∀ (ops : List Op) (js js' : jetStream),
    ledgerInv js → runOps js ops = some js' → ledgerInv js' := by
  intro ops
  induction ops with
  | nil =>
    intro js js' hInv h
    rw [runOps] at h
    injection h with h
    rw [← h]
    exact hInv
  | cons op rest ih =>
    intro js js' hInv h
    rw [runOps] at h
    split at h
    · rename_i js1 heq
      exact ih js1 js' (applyOp_preserves js js1 op hInv heq) h
    · simp at h

/-- C1 (amended): starting from a freshly enabled server, after any finite
sequence of successful enable/update/disable operations the ledger counters
equal the sums over currently enabled accounts of the positive parts of their
MaxMemory/MaxStore limits (reserve and release ignore non-positive
components); whenever every enabled account's stored limit component is
nonnegative this coincides with the plain sums claimed by the spec. -/
theorem ledger_accounting_invariant (cfg : JetStreamConfig) (sys : Nat)
    (ops : List Op) (js' : jetStream)
    (h : runOps (freshJetStream cfg sys) ops = some js') :
    js'.memReserved = memSum js'.accounts ∧
    js'.storeReserved = storeSum js'.accounts ∧
    ((∀ p ∈ js'.accounts, 0 ≤ p.2.limits.MaxMemory) →
      js'.memReserved = memSumPlain js'.accounts) ∧
    ((∀ p ∈ js'.accounts, 0 ≤ p.2.limits.MaxStore) →
      js'.storeReserved = storeSumPlain js'.accounts) := by
  obtain ⟨hnd, hm, hs⟩ := runOps_preserves ops _ js' (ledgerInv_fresh cfg sys) h
  refine ⟨hm, hs, ?_, ?_⟩
  · intro hpos
    rw [hm, memSum, memSumPlain]
    apply limSum_congr
    intro p hp
    have h0 := hpos p hp
    unfold posClip
    split <;> omega
  · intro hpos
    rw [hs, storeSum, storeSumPlain]
    apply limSum_congr
    intro p hp
    have h0 := hpos p hp
    unfold posClip
    split <;> omega

/-- Concrete operation sequence used to witness C1. -/
def c1DemoOps : List Op :=
  [.enable 1 (some ⟨10, 20, -1, -1⟩), .enable 2 (some ⟨5, 5, 0, 0⟩),
   .update 2 (some ⟨7, 3, 0, 0⟩), .disable 1]

/-- Final state of the C1 witness run. -/
def c1DemoState : jetStream :=
  (runOps (freshJetStream ⟨100, 100⟩ 0) c1DemoOps).getD (freshJetStream ⟨100, 100⟩ 0)

/-- C1 witness: the invariant evaluated on a concrete enable/enable/update/
disable run. -/
theorem ledger_accounting_invariant_witness :
    c1DemoState.memReserved = memSum c1DemoState.accounts ∧
    c1DemoState.storeReserved = storeSum c1DemoState.accounts ∧
    ((∀ p ∈ c1DemoState.accounts, 0 ≤ p.2.limits.MaxMemory) →
      c1DemoState.memReserved = memSumPlain c1DemoState.accounts) ∧
    ((∀ p ∈ c1DemoState.accounts, 0 ≤ p.2.limits.MaxStore) →
      c1DemoState.storeReserved = storeSumPlain c1DemoState.accounts) :=
  ledger_accounting_invariant ⟨100, 100⟩ 0 c1DemoOps c1DemoState (by decide)

/-- C1 counterexample: one successful EnableJetStream call with MaxMemory = -1
(admitted by `sufficientResources`, ignored by `reserveResources`) leaves the
ledger counter at 0 while the plain sum over enabled accounts is -1, so the
claimed equality with the plain sums fails. -/
theorem ledger_accounting_plain_sum_cex :
    ¬ (∀ js', runOps (freshJetStream ⟨100, 100⟩ 0)
        [.enable 1 (some ⟨-1, 0, -1, -1⟩)] = some js' →
        js'.memReserved = memSumPlain js'.accounts ∧
        js'.storeReserved = storeSumPlain js'.accounts) := by
  intro hcl
  have h := hcl ((runOps (freshJetStream ⟨100, 100⟩ 0)
      [.enable 1 (some ⟨-1, 0, -1, -1⟩)]).getD (freshJetStream ⟨100, 100⟩ 0))
    (by decide)
  exact absurd h.1 (by decide)

/-- C4: a successful `UpdateJetStreamLimits` computes the delta only over
MaxMemory and MaxStore (new minus old, stream/consumer components zero),
is admitted via the sufficiency check on that delta, replaces the ledger
reservation by release(old) then reserve(new), and afterwards the account
carries exactly the new limits while its memUsed/storeUsed (and all other
per-account fields) are untouched. -/
theorem updateJetStreamLimits_delta (js : jetStream) (a : Nat) (jsa : jsAccount)
    (new : JetStreamAccountLimits)
    (hacc : lookupAccount js a = some jsa)
    (hsuff : sufficientResources js (diffCheckedLimits jsa.limits new) = .ok ()) :
    diffCheckedLimits jsa.limits new =
      ⟨new.MaxMemory - jsa.limits.MaxMemory, new.MaxStore - jsa.limits.MaxStore, 0, 0⟩ ∧
    (updateJetStreamLimits js a (some new)).1 = none ∧
    lookupAccount (updateJetStreamLimits js a (some new)).2 a =
      some { jsa with limits := new } ∧
    (updateJetStreamLimits js a (some new)).2.memReserved =
      js.memReserved - posClip jsa.limits.MaxMemory + posClip new.MaxMemory ∧
    (updateJetStreamLimits js a (some new)).2.storeReserved =
      js.storeReserved - posClip jsa.limits.MaxStore + posClip new.MaxStore := by
  have hstep : updateJetStreamLimits js a (some new) =
      (none, { js with
        accounts := js.accounts.map (replaceLimitsFun a new),
        memReserved :=
          js.memReserved - posClip jsa.limits.MaxMemory + posClip new.MaxMemory,
        storeReserved :=
          js.storeReserved - posClip jsa.limits.MaxStore + posClip new.MaxStore }) := by
    unfold updateJetStreamLimits
    rw [hacc]
    dsimp only [Option.getD]
    rw [hsuff]
    dsimp only
    rw [releaseResources_eq, reserveResources_eq]
  obtain ⟨q, hfind, hqa, hq2⟩ := lookupAccount_some js a jsa hacc
  refine ⟨rfl, by rw [hstep], ?_, by rw [hstep], by rw [hstep]⟩
  rw [hstep]
  unfold lookupAccount
  dsimp only
  rw [find?_map_replace, hfind]
  dsimp only [Option.map, replaceLimitsFun]
  rw [if_pos hqa]
  dsimp only
  rw [hq2]

/-- Concrete enabled-account state used to witness C4 and C9. -/
def c4State : jetStream :=
  { config := ⟨100, 100⟩, sysAcc := 0,
    accounts := [(1, ⟨⟨10, 20, -1, -1⟩, 0, 3, 0, 4, []⟩)],
    memReserved := 10, storeReserved := 20 }

/-- The account entry stored in `c4State`. -/
def c4Jsa : jsAccount := ⟨⟨10, 20, -1, -1⟩, 0, 3, 0, 4, []⟩

/-- The new limits requested in the C4 witness. -/
def c4New : JetStreamAccountLimits := ⟨30, 5, 2, 2⟩

/-- C4 witness: the theorem at a concrete enabled account and new limits. -/
theorem updateJetStreamLimits_delta_witness :
    diffCheckedLimits c4Jsa.limits c4New =
      ⟨c4New.MaxMemory - c4Jsa.limits.MaxMemory,
        c4New.MaxStore - c4Jsa.limits.MaxStore, 0, 0⟩ ∧
    (updateJetStreamLimits c4State 1 (some c4New)).1 = none ∧
    lookupAccount (updateJetStreamLimits c4State 1 (some c4New)).2 1 =
      some { c4Jsa with limits := c4New } ∧
    (updateJetStreamLimits c4State 1 (some c4New)).2.memReserved =
      c4State.memReserved - posClip c4Jsa.limits.MaxMemory + posClip c4New.MaxMemory ∧
    (updateJetStreamLimits c4State 1 (some c4New)).2.storeReserved =
      c4State.storeReserved - posClip c4Jsa.limits.MaxStore + posClip c4New.MaxStore :=
  updateJetStreamLimits_delta c4State 1 c4Jsa c4New (by decide) (by rfl)

/-- C9: when the account is enabled but the sufficiency check on the computed
delta fails, `UpdateJetStreamLimits` returns exactly that error and the whole
ledger state is returned unchanged: same reserved counters and the account
still stores its old limits (no partial release or reserve happens). -/
theorem updateJetStreamLimits_reject (js : jetStream) (a : Nat) (jsa : jsAccount)
    (new : JetStreamAccountLimits) (e : JetStreamError)
    (hacc : lookupAccount js a = some jsa)
    (herr : sufficientResources js (diffCheckedLimits jsa.limits new) = .error e) :
    updateJetStreamLimits js a (some new) = (some e, js) ∧
    (updateJetStreamLimits js a (some new)).2.memReserved = js.memReserved ∧
    (updateJetStreamLimits js a (some new)).2.storeReserved = js.storeReserved ∧
    lookupAccount (updateJetStreamLimits js a (some new)).2 a = some jsa := by
  have hstep : updateJetStreamLimits js a (some new) = (some e, js) := by
    unfold updateJetStreamLimits
    rw [hacc]
    dsimp only [Option.getD]
    rw [herr]
  exact ⟨hstep, by rw [hstep], by rw [hstep], by rw [hstep]; exact hacc⟩

/-- The oversized limits request used to witness C9. -/
def c9New : JetStreamAccountLimits := ⟨200, 0, 0, 0⟩

/-- C9 witness: a concrete rejected update through the theorem. -/
theorem updateJetStreamLimits_reject_witness :
    updateJetStreamLimits c4State 1 (some c9New) = (some .insufficientMemory, c4State) ∧
    (updateJetStreamLimits c4State 1 (some c9New)).2.memReserved = c4State.memReserved ∧
    (updateJetStreamLimits c4State 1 (some c9New)).2.storeReserved = c4State.storeReserved ∧
    lookupAccount (updateJetStreamLimits c4State 1 (some c9New)).2 1 = some c4Jsa :=
  updateJetStreamLimits_reject c4State 1 c4Jsa c9New .insufficientMemory
    (by decide) (by rfl)

/-- Concrete zero-cap template used to witness C10. -/
def c10Tmpl : StreamTemplate :=
  ⟨['Z'], ⟨['_'], [['x']], [], 0, 0, 1, .FileStorage⟩, 0, []⟩

/-- C10 witness: the theorem at a concrete zero-cap template over a concrete
message sequence. -/
theorem template_zero_cap_spec_witness :
    (processTemplateMsgs [] c10Tmpl [['a'], ['b']]).2 = ([], c10Tmpl) :=
  ((template_zero_cap_spec c10Tmpl rfl).2 [] [['a'], ['b']]).1
